import Mathlib

/-!
Verification of the `onepicture` photo-deduplication pipeline
(`src/onepicture.py`).  The Python program is shallowly embedded:

* file contents are `List Nat` (byte values); an unreadable file is `none`;
* the filesystem is an association list from paths (component lists) to
  contents; `shutil.copy2` becomes an insertion, guarded exactly as in the
  source by `Path.exists`;
* the MD5 digest is an abstract parameter `md5Hex : List Nat → String`
  standing for `hashlib.md5(...).hexdigest()` applied to the concatenation
  of all bytes fed through `update`; no claim depends on MD5 internals,
  only on which bytes are fed;
* timestamps are modeled to second precision (`datetime.fromtimestamp`
  values whose microsecond field is zero), which is the precision the
  spec requires for the `YYYY-MM` partition key.
-/

/-! ## Datetime model: `datetime.isoformat`, `datetime.fromisoformat`,
`strftime('%Y-%m')` as used at `onepicture.py` lines 95 and 198-199. -/

structure PyDateTime where
  year : Nat
  month : Nat
  day : Nat
  hour : Nat
  minute : Nat
  second : Nat
deriving DecidableEq, Repr

/-- Constructor-level validity of a `datetime.datetime` value
(`datetime` enforces these bounds). -/
def ValidDT (d : PyDateTime) : Prop :=
  1 ≤ d.year ∧ d.year ≤ 9999 ∧ 1 ≤ d.month ∧ d.month ≤ 12 ∧
  1 ≤ d.day ∧ d.day ≤ 31 ∧ d.hour ≤ 23 ∧ d.minute ≤ 59 ∧ d.second ≤ 59

instance (d : PyDateTime) : Decidable (ValidDT d) := by
  unfold ValidDT; infer_instance

def digitChar (n : Nat) : Char := Char.ofNat (48 + n)

def digitVal (c : Char) : Nat := c.toNat - 48

def isDigitCh (c : Char) : Bool := 48 ≤ c.toNat && c.toNat ≤ 57

/-- Two-digit zero-padded rendering, as `%02d` produces for values `< 100`
(all datetime fields rendered with it are `≤ 59`). -/
def pad2 (n : Nat) : List Char := [digitChar (n / 10 % 10), digitChar (n % 10)]

/-- Four-digit zero-padded rendering, as `%04d` produces for values `< 10000`
(datetime years are `≤ 9999`). -/
def pad4 (n : Nat) : List Char :=
  [digitChar (n / 1000 % 10), digitChar (n / 100 % 10),
   digitChar (n / 10 % 10), digitChar (n % 10)]

/-- `datetime.isoformat()` for a microsecond-free datetime:
`YYYY-MM-DDTHH:MM:SS`. -/
def isoformat (d : PyDateTime) : String :=
  String.mk (pad4 d.year ++ '-' :: pad2 d.month ++ '-' :: pad2 d.day ++
    'T' :: pad2 d.hour ++ ':' :: pad2 d.minute ++ ':' :: pad2 d.second)

/-- `datetime.fromisoformat` restricted to the exact shape produced by
`isoformat` above (the only strings the program ever parses); any other
string is a parse failure (Python raises `ValueError`, which
`create_timeline_directories` does not catch). -/
def fromisoformat (s : String) : Option PyDateTime :=
  match s.data with
  | [y1, y2, y3, y4, '-', m1, m2, '-', d1, d2, 'T',
     h1, h2, ':', n1, n2, ':', s1, s2] =>
    if isDigitCh y1 ∧ isDigitCh y2 ∧ isDigitCh y3 ∧ isDigitCh y4 ∧
       isDigitCh m1 ∧ isDigitCh m2 ∧ isDigitCh d1 ∧ isDigitCh d2 ∧
       isDigitCh h1 ∧ isDigitCh h2 ∧ isDigitCh n1 ∧ isDigitCh n2 ∧
       isDigitCh s1 ∧ isDigitCh s2 then
      some ⟨((digitVal y1 * 10 + digitVal y2) * 10 + digitVal y3) * 10 + digitVal y4,
            digitVal m1 * 10 + digitVal m2,
            digitVal d1 * 10 + digitVal d2,
            digitVal h1 * 10 + digitVal h2,
            digitVal n1 * 10 + digitVal n2,
            digitVal s1 * 10 + digitVal s2⟩
    else none
  | _ => none

/-- `strftime('%Y-%m')`: the timeline partition key (line 199). -/
def ymOf (d : PyDateTime) : String := String.mk (pad4 d.year ++ '-' :: pad2 d.month)

/-! ## Fingerprinter: `read_file_chunks` and `calculate_file_hash`
(`onepicture.py` lines 35, 39-81).

A file is given by its readable content (`some bytes`) or `none` when
`open` raises `FileNotFoundError`/`PermissionError`. -/

def CHUNK_SIZE : Nat := 1024 * 1024

/-- Python truthiness of an `Optional[bytes]` value: `None` and `b''`
are falsy. -/
def pyTruthy : Option (List Nat) → Bool
  | none => false
  | some l => !l.isEmpty

/-- `read_file_chunks`: first chunk is `f.read(chunk_size)`; the suffix
seek `f.seek(-chunk_size, os.SEEK_END)` raises `OSError` (leaving
`tail = None`) exactly when the file is shorter than `chunk_size`,
otherwise the tail is the final `chunk_size` bytes.  An unreadable file
yields `(None, None)`. -/
def read_file_chunks (content : Option (List Nat)) (chunk_size : Nat) :
    Option (List Nat) × Option (List Nat) :=
  match content with
  | none => (none, none)
  | some c =>
    (some (c.take chunk_size),
     if c.length < chunk_size then none else some (c.drop (c.length - chunk_size)))

/-- The bytes actually passed through `md5_hash.update`: the head chunk when
truthy, then the tail chunk when truthy (`if head: ... if tail: ...`). -/
def feedChunks (hd tl : Option (List Nat)) : List Nat :=
  (cond (pyTruthy hd) (hd.getD []) []) ++ (cond (pyTruthy tl) (tl.getD []) [])

/-- `calculate_file_hash`: feed the head chunk then the tail chunk into the
digest when each is truthy; return the hex digest if either chunk was
truthy, else `None`.  `md5Hex` abstracts `hashlib.md5` applied to the
concatenation of all bytes passed through `update`. -/
def calculate_file_hash (md5Hex : List Nat → String)
    (content : Option (List Nat)) : Option String :=
  match read_file_chunks content CHUNK_SIZE with
  | (hd, tl) =>
    cond (pyTruthy hd || pyTruthy tl) (some (md5Hex (feedChunks hd tl))) none

/-! ## Scanner: `process_file` and `make_dataframe_from_metadata`
(`onepicture.py` lines 83-131).

A `PyFile` is one filesystem entry as the external `os.walk` collaborator
plus `stat`/`open` expose it: `stat = none` models `Path.stat()` raising
`FileNotFoundError`/`PermissionError`; `content = none` models `open`
raising.  Paths are lists of components (the string rendering of
`pathlib.Path` objects is kept as the component list itself). -/

structure PyFile where
  name : String
  path : List String
  stat : Option (Nat × PyDateTime)
  content : Option (List Nat)
deriving DecidableEq, Repr

/-- One metadata row (one element of `file_metadata_list`, i.e. one row of
the pandas dataframe).  `SizeBytes` keeps `st_size` in bytes: the source
stores `st_size / 1024` as a float display column which no claim reads.
`Full_path` keeps the path as its component list. -/
structure FileRecord where
  Filename : String
  Full_path : List String
  SizeBytes : Nat
  ModifiedTime : String
  FileHash : String
  FileExtension : String
deriving DecidableEq, Repr

/-- ASCII `str.lower` (file extensions in this pipeline are ASCII). -/
def asciiLower (s : String) : String :=
  String.mk (s.data.map fun c =>
    if 'A' ≤ c ∧ c ≤ 'Z' then Char.ofNat (c.toNat + 32) else c)

/-- Index of the last '.' in a character list, if any. -/
def lastDotIdx (cs : List Char) : Option Nat :=
  match cs with
  | [] => none
  | c :: rest =>
    match lastDotIdx rest with
    | some i => some (i + 1)
    | none => if c = '.' then some 0 else none

/-- `pathlib.PurePath.suffix`: the part of the final component from its last
dot, unless that dot is the first or last character. -/
def pySuffix (name : String) : String :=
  match lastDotIdx name.data with
  | some i => if 0 < i ∧ i < name.data.length - 1 then String.mk (name.data.drop i) else ""
  | none => ""

/-- `process_file`: stat the file (failure caught, yielding `None`), render
the mtime with `isoformat`, hash the content; keep the row only when the
hash is truthy (a non-`None`, non-empty string). -/
def process_file (md5Hex : List Nat → String) (f : PyFile) : Option FileRecord :=
  match f.stat with
  | none => none
  | some (size, mtime) =>
    match calculate_file_hash md5Hex f.content with
    | none => none
    | some h =>
      if h = "" then none
      else some ⟨f.name, f.path, size, isoformat mtime, h, asciiLower (pySuffix f.name)⟩

/-- The scan's fixed noise-filename exclusions (line 121). -/
def keepName (n : String) : Bool :=
  !(n == "Thumbs.db" || n == ".DS_Store" || n == ".processed_files.hash")

/-- `make_dataframe_from_metadata`: walk output, minus noise names, each
processed by `process_file` (executor.map preserves input order), failures
dropped; the resulting dataframe rows carry their positional pandas index. -/
def make_dataframe_from_metadata (md5Hex : List Nat → String)
    (walk : List PyFile) : List (Nat × FileRecord) :=
  (((walk.filter fun f => keepName f.name).filterMap (process_file md5Hex))).enum

/-! ## Classifier: `identify_duplicates` (lines 144-156) and
`metadata_df.drop_duplicates(subset='FileHash')` (line 246).

`dupGo seen rows` returns the rows marked by
`duplicated(subset='FileHash', keep='first')`: those whose hash appeared
in an earlier row; `keepGo` returns the complement, as
`drop_duplicates(subset='FileHash')` keeps first occurrences.  `seen`
accumulates the hashes of all rows already passed. -/

def dupGo (seen : List String) : List (Nat × FileRecord) → List (Nat × FileRecord)
  | [] => []
  | r :: rest =>
    if r.2.FileHash ∈ seen then r :: dupGo (r.2.FileHash :: seen) rest
    else dupGo (r.2.FileHash :: seen) rest

def keepGo (seen : List String) : List (Nat × FileRecord) → List (Nat × FileRecord)
  | [] => []
  | r :: rest =>
    if r.2.FileHash ∈ seen then keepGo (r.2.FileHash :: seen) rest
    else r :: keepGo (r.2.FileHash :: seen) rest

def identify_duplicates (df : List (Nat × FileRecord)) : List (Nat × FileRecord) :=
  dupGo [] df

def drop_duplicates (df : List (Nat × FileRecord)) : List (Nat × FileRecord) :=
  keepGo [] df

/-! ## Filesystem and archiver: `move_files` (lines 158-179),
`create_timeline_directories` (lines 181-218), `batch_generator`
(lines 133-142) and `main` (lines 233-266).

The filesystem is an association list from paths to byte contents; a fresh
insertion shadows nothing because every `shutil.copy2` in the program is
guarded by `destination_path.exists()`.  `create_directory` (`mkdir
parents=True exist_ok=True`) never fails and does not affect the file map,
so it is not modeled.  Log lines and performed copies are recorded as
event traces. -/

inductive LogEvent where
  | movingInfo (src dst : List String)
  | copyingInfo (src dst : List String)
  | errorLog (src : List String)
deriving DecidableEq, Repr

structure World where
  fs : List (List String × List Nat)
  log : List LogEvent
  copies : List (List String × List String)
deriving DecidableEq, Repr

def fsLookup : List (List String × List Nat) → List String → Option (List Nat)
  | [], _ => none
  | (q, c) :: fs, p => if p = q then some c else fsLookup fs p

/-- `Path.exists()` against the modeled file map. -/
def pathExists (fs : List (List String × List Nat)) (p : List String) : Bool :=
  (fsLookup fs p).isSome

/-- The quarantine destination of one duplicate row:
`destination_directory / f"{idx}_{row['Filename']}"` (line 168). -/
def mvDst (dir : List String) (row : Nat × FileRecord) : List String :=
  dir ++ [Nat.repr row.1 ++ "_" ++ row.2.Filename]

/-- One iteration of the `move_files` loop: log the moving-info line, then
copy unless the destination already exists; `FileNotFoundError` from a
vanished source is caught and logged. -/
def mvStep (dir : List String) (w : World) (row : Nat × FileRecord) : World :=
  let dst := mvDst dir row
  let w1 : World := { w with log := w.log ++ [LogEvent.movingInfo row.2.Full_path dst] }
  cond (pathExists w1.fs dst) w1
    (match fsLookup w1.fs row.2.Full_path with
     | some c => { w1 with fs := (dst, c) :: w1.fs
                           copies := w1.copies ++ [(row.2.Full_path, dst)] }
     | none => { w1 with log := w1.log ++ [LogEvent.errorLog row.2.Full_path] })

def move_files (dups : List (Nat × FileRecord)) (dir : List String) (w : World) : World :=
  match dups with
  | [] => w
  | row :: rest => move_files rest dir (mvStep dir w row)

structure TLState where
  w : World
  copied : Nat
  skipped : Nat
deriving DecidableEq, Repr

/-- One iteration of the `create_timeline_directories` loop: parse the
stored mtime (an uncaught `ValueError` aborts the run, hence `Option`),
derive the `YYYY-MM` partition, log the copying-info line, then copy /
count, with per-file I/O failures caught and logged. -/
def ctdStep (root : List String) (st : TLState) (row : Nat × FileRecord) : Option TLState :=
  match fromisoformat row.2.ModifiedTime with
  | none => none
  | some d =>
    let dst := root ++ [ymOf d, row.2.Filename]
    let w1 : World := { st.w with log := st.w.log ++ [LogEvent.copyingInfo row.2.Full_path dst] }
    some (cond (pathExists w1.fs dst)
      ⟨w1, st.copied, st.skipped + 1⟩
      (match fsLookup w1.fs row.2.Full_path with
       | some c =>
         ⟨{ w1 with fs := (dst, c) :: w1.fs
                    copies := w1.copies ++ [(row.2.Full_path, dst)] },
          st.copied + 1, st.skipped⟩
       | none =>
         ⟨{ w1 with log := w1.log ++ [LogEvent.errorLog row.2.Full_path] },
          st.copied, st.skipped⟩))

def create_timeline_directories (rows : List (Nat × FileRecord)) (root : List String)
    (copied skipped : Nat) (w : World) : Option TLState :=
  match rows with
  | [] => some ⟨w, copied, skipped⟩
  | row :: rest =>
    match ctdStep root ⟨w, copied, skipped⟩ row with
    | none => none
    | some st => create_timeline_directories rest root st.copied st.skipped st.w

def PICTURE_DIRECTORY : List String := ["Volumes", "Master", "All_PICTURES"]

def REDUNDANT_DIRECTORY : List String := ["Volumes", "DanExtDisk2", "onepicture_deleteme"]

def TIMELINE_DIRECTORY : List String := ["Volumes", "DanExtDisk2", "Photo_Time_line"]

def BATCH_SIZE : Nat := 1000

/-- `batch_generator`: successive slices of `BATCH_SIZE` rows. -/
def batch_generator (df : List (Nat × FileRecord)) : List (List (Nat × FileRecord)) :=
  if h : df = [] then []
  else df.take BATCH_SIZE :: batch_generator (df.drop BATCH_SIZE)
termination_by df.length
decreasing_by
  rw [List.length_drop]
  have hne : df.length ≠ 0 := fun hl => h (List.eq_nil_of_length_eq_zero hl)
  have hb : 0 < BATCH_SIZE := by decide
  omega

/-- The `main` loop over batches, threading the copied/skipped counters. -/
def runBatches (batches : List (List (Nat × FileRecord))) (w : World)
    (copied skipped : Nat) : Option TLState :=
  match batches with
  | [] => some ⟨w, copied, skipped⟩
  | b :: rest =>
    match create_timeline_directories b TIMELINE_DIRECTORY copied skipped w with
    | none => none
    | some st => runBatches rest st.w st.copied st.skipped

/-- `main`: scan, classify, quarantine duplicates, then copy the unique
representatives batchwise into the timeline tree. -/
def mainRun (md5Hex : List Nat → String) (walk : List PyFile) (w : World) : Option TLState :=
  let metadata_df := make_dataframe_from_metadata md5Hex walk
  let unique_files_df := drop_duplicates metadata_df
  let duplicates_df := identify_duplicates metadata_df
  let w1 := move_files duplicates_df REDUNDANT_DIRECTORY w
  runBatches (batch_generator unique_files_df) w1 0 0

/-! ## Frame and progress lemmas for the archiver. -/

/-- Every lookup that succeeds keeps succeeding with the same content. -/
def fsSub (fs fs2 : List (List String × List Nat)) : Prop :=
  ∀ p c, fsLookup fs p = some c → fsLookup fs2 p = some c

/-- The partition computation of `create_timeline_directories` lines
198-199, factored: parse the stored mtime, render `%Y-%m`. -/
def partitionKey (r : FileRecord) : Option String :=
  (fromisoformat r.ModifiedTime).map ymOf

/-- The paths a log line mentions (used to state what a log line can
identify). -/
def eventPaths : LogEvent → List (List String)
  | .movingInfo s d => [s, d]
  | .copyingInfo s d => [s, d]
  | .errorLog s => [s]

/-- A concrete stand-in digest for witnesses: total, injective enough on
the byte lists used below, never empty (as `md5.hexdigest()` never is). -/
def exampleDigest (bs : List Nat) : String :=
  String.mk ('h' :: bs.map fun b => Char.ofNat (97 + b % 26))

def dtW : PyDateTime := ⟨2024, 1, 5, 10, 0, 0⟩

def dtC8 : PyDateTime := ⟨2023, 6, 15, 10, 0, 0⟩

def fileA : PyFile :=
  ⟨"a.jpg", PICTURE_DIRECTORY ++ ["a.jpg"], some (3, dtW), some [1, 2, 3]⟩

/-- A vanished file: both `stat` and `open` raise. -/
def badFile : PyFile := ⟨"bad.jpg", PICTURE_DIRECTORY ++ ["bad.jpg"], none, none⟩

/-- A readable zero-length file: `stat` succeeds, `open` succeeds, the
content is empty. -/
def emptyFile : PyFile :=
  ⟨"empty.jpg", PICTURE_DIRECTORY ++ ["empty.jpg"], some (0, dtW), some []⟩

def fileC8 : PyFile :=
  ⟨"c.jpg", PICTURE_DIRECTORY ++ ["c.jpg"], some (3, dtC8), some [3, 1, 2]⟩

def walkW : List PyFile := [fileA]

def wW : World := ⟨[(PICTURE_DIRECTORY ++ ["a.jpg"], [1, 2, 3])], [], []⟩

def recA : FileRecord :=
  ⟨"a.jpg", PICTURE_DIRECTORY ++ ["a.jpg"], 3, "2024-01-05T10:00:00", "h1", ".jpg"⟩

def recB : FileRecord :=
  ⟨"b.jpg", PICTURE_DIRECTORY ++ ["b.jpg"], 3, "2024-01-06T10:00:00", "h1", ".jpg"⟩

def recC4 : FileRecord :=
  ⟨"a.jpg", PICTURE_DIRECTORY ++ ["a.jpg"], 3, "2023-06-15T10:00:00", "hX", ".jpg"⟩

/-- Destination file already present at its partition path, no ledger file
anywhere (the situation the self-healing-ledger claim describes). -/
def wC4 : World :=
  ⟨[(TIMELINE_DIRECTORY ++ ["2023-06", "a.jpg"], [1, 2, 3]),
    (PICTURE_DIRECTORY ++ ["a.jpg"], [1, 2, 3])], [], []⟩

/-- Two representatives with different fingerprints, equal filenames and
equal partitions: they collide on one destination path. -/
def recP : FileRecord :=
  ⟨"a.jpg", PICTURE_DIRECTORY ++ ["p1", "a.jpg"], 1, "2023-06-15T10:00:00", "hA", ".jpg"⟩

def recQ : FileRecord :=
  ⟨"a.jpg", PICTURE_DIRECTORY ++ ["p2", "a.jpg"], 1, "2023-06-15T10:00:00", "hB", ".jpg"⟩

def wC5 : World :=
  ⟨[(PICTURE_DIRECTORY ++ ["p1", "a.jpg"], [0]),
    (PICTURE_DIRECTORY ++ ["p2", "a.jpg"], [1])], [], []⟩

theorem isDigitCh_digitChar {j : Nat} (h : j < 10) : isDigitCh (digitChar j) = true := by
  interval_cases j <;> decide

theorem digitVal_digitChar {j : Nat} (h : j < 10) : digitVal (digitChar j) = j := by
  interval_cases j <;> decide

theorem fromisoformat_isoformat (d : PyDateTime) (h : ValidDT d) :
    fromisoformat (isoformat d) = some d := by
  obtain ⟨y, mo, dy, hr, mi, se⟩ := d
  simp only [ValidDT] at h
  obtain ⟨h1, h2, h3, h4, h5, h6, h7, h8, h9⟩ := h
  have m10 : ∀ n : Nat, n % 10 < 10 := fun n => Nat.mod_lt _ (by decide)
  show fromisoformat
      (String.mk (pad4 y ++ '-' :: pad2 mo ++ '-' :: pad2 dy ++
        'T' :: pad2 hr ++ ':' :: pad2 mi ++ ':' :: pad2 se)) = some _
  simp only [pad4, pad2, List.cons_append, List.nil_append]
  rw [fromisoformat]
  simp only [String.data]
  rw [if_pos]
  · simp only [Option.some.injEq]
    have dv : ∀ n : Nat, digitVal (digitChar (n % 10)) = n % 10 :=
      fun n => digitVal_digitChar (m10 n)
    rw [dv, dv, dv, dv, dv, dv, dv, dv, dv, dv, dv, dv, dv, dv]
    simp only [PyDateTime.mk.injEq]
    refine ⟨by omega, by omega, by omega, by omega, by omega, by omega⟩
  · have dc : ∀ n : Nat, isDigitCh (digitChar (n % 10)) = true :=
      fun n => isDigitCh_digitChar (m10 n)
    refine ⟨dc _, dc _, dc _, dc _, dc _, dc _, dc _, dc _, dc _, dc _, dc _, dc _, dc _, dc _⟩

theorem isEmpty_false_of_length_pos {α : Type} {l : List α} (h : 0 < l.length) :
    l.isEmpty = false := by
  cases l with
  | nil => simp at h
  | cons a t => rfl

theorem calculate_file_hash_small (md5Hex : List Nat → String) (c : List Nat)
    (h1 : 1 ≤ c.length) (h2 : c.length < CHUNK_SIZE) :
    read_file_chunks (some c) CHUNK_SIZE = (some c, none) ∧
    calculate_file_hash md5Hex (some c) = some (md5Hex c) := by
  have htake : c.take CHUNK_SIZE = c := List.take_of_length_le (Nat.le_of_lt h2)
  have hrfc : read_file_chunks (some c) CHUNK_SIZE = (some c, none) := by
    simp only [read_file_chunks, if_pos h2, htake]
  refine ⟨hrfc, ?_⟩
  have hne : c.isEmpty = false := isEmpty_false_of_length_pos h1
  simp only [calculate_file_hash, hrfc, feedChunks, pyTruthy, hne, Bool.not_false,
    Option.getD_some, cond_true, cond_false, Bool.true_or, List.append_nil]

theorem calculate_file_hash_large (md5Hex : List Nat → String) (c : List Nat)
    (h : CHUNK_SIZE ≤ c.length) :
    calculate_file_hash md5Hex (some c) =
      some (md5Hex (c.take CHUNK_SIZE ++ c.drop (c.length - CHUNK_SIZE))) := by
  have hnlt : ¬ c.length < CHUNK_SIZE := Nat.not_lt.mpr h
  have hrfc : read_file_chunks (some c) CHUNK_SIZE =
      (some (c.take CHUNK_SIZE), some (c.drop (c.length - CHUNK_SIZE))) := by
    simp only [read_file_chunks, if_neg hnlt]
  have hchunk : 0 < CHUNK_SIZE := by decide
  have htne : (c.take CHUNK_SIZE).isEmpty = false := by
    apply isEmpty_false_of_length_pos
    rw [List.length_take]
    omega
  have hdne : (c.drop (c.length - CHUNK_SIZE)).isEmpty = false := by
    apply isEmpty_false_of_length_pos
    rw [List.length_drop]
    omega
  have e1 : pyTruthy (some (c.take CHUNK_SIZE)) = true := by
    show (!(c.take CHUNK_SIZE).isEmpty) = true
    rw [htne]; rfl
  have e2 : pyTruthy (some (c.drop (c.length - CHUNK_SIZE))) = true := by
    show (!(c.drop (c.length - CHUNK_SIZE)).isEmpty) = true
    rw [hdne]; rfl
  rw [calculate_file_hash, hrfc]
  show cond (pyTruthy (some (c.take CHUNK_SIZE)) ||
        pyTruthy (some (c.drop (c.length - CHUNK_SIZE))))
      (some (md5Hex (feedChunks (some (c.take CHUNK_SIZE))
        (some (c.drop (c.length - CHUNK_SIZE)))))) none = _
  rw [e1, e2, Bool.true_or, cond_true, feedChunks, e1, e2, cond_true, cond_true,
    Option.getD_some, Option.getD_some]

theorem mem_of_mem_keepGo {seen : List String} {l : List (Nat × FileRecord)}
    {x : Nat × FileRecord} (h : x ∈ keepGo seen l) : x ∈ l := by
  induction l generalizing seen with
  | nil => simp [keepGo] at h
  | cons r rest ih =>
    by_cases hm : r.2.FileHash ∈ seen
    · rw [keepGo, if_pos hm] at h
      exact List.mem_cons_of_mem _ (ih h)
    · rw [keepGo, if_neg hm] at h
      rcases List.mem_cons.mp h with h1 | h2
      · exact h1 ▸ List.mem_cons_self _ _
      · exact List.mem_cons_of_mem _ (ih h2)

theorem mem_of_mem_dupGo {seen : List String} {l : List (Nat × FileRecord)}
    {x : Nat × FileRecord} (h : x ∈ dupGo seen l) : x ∈ l := by
  induction l generalizing seen with
  | nil => simp [dupGo] at h
  | cons r rest ih =>
    by_cases hm : r.2.FileHash ∈ seen
    · rw [dupGo, if_pos hm] at h
      rcases List.mem_cons.mp h with h1 | h2
      · exact h1 ▸ List.mem_cons_self _ _
      · exact List.mem_cons_of_mem _ (ih h2)
    · rw [dupGo, if_neg hm] at h
      exact List.mem_cons_of_mem _ (ih h)

theorem not_seen_of_mem_keepGo {seen : List String} {l : List (Nat × FileRecord)}
    {x : Nat × FileRecord} (h : x ∈ keepGo seen l) : x.2.FileHash ∉ seen := by
  induction l generalizing seen with
  | nil => simp [keepGo] at h
  | cons r rest ih =>
    by_cases hm : r.2.FileHash ∈ seen
    · rw [keepGo, if_pos hm] at h
      exact fun hx => (ih h) (List.mem_cons_of_mem _ hx)
    · rw [keepGo, if_neg hm] at h
      rcases List.mem_cons.mp h with h1 | h2
      · subst h1; exact hm
      · exact fun hx => (ih h2) (List.mem_cons_of_mem _ hx)

theorem mem_keepGo_or_dupGo {seen : List String} {l : List (Nat × FileRecord)}
    {x : Nat × FileRecord} (h : x ∈ l) : x ∈ keepGo seen l ∨ x ∈ dupGo seen l := by
  induction l generalizing seen with
  | nil => cases h
  | cons r rest ih =>
    rcases List.mem_cons.mp h with h1 | h2
    · subst h1
      by_cases hm : x.2.FileHash ∈ seen
      · right; rw [dupGo, if_pos hm]; exact List.mem_cons_self _ _
      · left; rw [keepGo, if_neg hm]; exact List.mem_cons_self _ _
    · by_cases hm : r.2.FileHash ∈ seen
      · rcases @ih (r.2.FileHash :: seen) h2 with hk | hd
        · left; rw [keepGo, if_pos hm]; exact hk
        · right; rw [dupGo, if_pos hm]; exact List.mem_cons_of_mem _ hd
      · rcases @ih (r.2.FileHash :: seen) h2 with hk | hd
        · left; rw [keepGo, if_neg hm]; exact List.mem_cons_of_mem _ hk
        · right; rw [dupGo, if_neg hm]; exact hd

theorem mem_keepGo_iff {seen : List String} {l : List (Nat × FileRecord)}
    {x : Nat × FileRecord} (hp : l.Pairwise fun a b => a.1 < b.1)
    (hx : x ∈ l) (hs : x.2.FileHash ∉ seen) :
    x ∈ keepGo seen l ↔ ∀ y ∈ l, y.2.FileHash = x.2.FileHash → x.1 ≤ y.1 := by
  induction l generalizing seen with
  | nil => cases hx
  | cons r rest ih =>
    rw [List.pairwise_cons] at hp
    obtain ⟨hr, hp'⟩ := hp
    rcases List.mem_cons.mp hx with h1 | h2
    · subst h1
      rw [keepGo, if_neg hs]
      constructor
      · intro _ y hy hhash
        rcases List.mem_cons.mp hy with he | hy'
        · rw [he]
        · exact Nat.le_of_lt (hr y hy')
      · intro _; exact List.mem_cons_self _ _
    · have hxr : x ≠ r := by
        intro he
        subst he
        exact absurd (hr x h2) (lt_irrefl _)
      by_cases hm : r.2.FileHash ∈ seen
      · have hneq : x.2.FileHash ≠ r.2.FileHash := fun he => hs (he ▸ hm)
        rw [keepGo, if_pos hm]
        have hs' : x.2.FileHash ∉ r.2.FileHash :: seen := by
          intro hmem
          rcases List.mem_cons.mp hmem with he | he
          · exact hneq he
          · exact hs he
        rw [ih hp' h2 hs']
        constructor
        · intro hall y hy hh
          rcases List.mem_cons.mp hy with he | hy'
          · exact absurd (he ▸ hh).symm hneq
          · exact hall y hy' hh
        · intro hall y hy hh
          exact hall y (List.mem_cons_of_mem _ hy) hh
      · rw [keepGo, if_neg hm]
        by_cases hhash : x.2.FileHash = r.2.FileHash
        · constructor
          · intro hmem
            rcases List.mem_cons.mp hmem with he | hmem'
            · exact absurd he hxr
            · have hin : x.2.FileHash ∈ r.2.FileHash :: seen := by
                rw [hhash]; exact List.mem_cons_self _ _
              exact absurd hin (not_seen_of_mem_keepGo hmem')
          · intro hall
            exfalso
            have hle := hall r (List.mem_cons_self _ _) hhash.symm
            have hlt := hr x h2
            omega
        · have hs' : x.2.FileHash ∉ r.2.FileHash :: seen := by
            intro hmem
            rcases List.mem_cons.mp hmem with he | he
            · exact hhash he
            · exact hs he
          rw [List.mem_cons]
          constructor
          · intro hor
            rcases hor with he | hmem'
            · exact absurd he hxr
            · intro y hy hh
              rcases List.mem_cons.mp hy with he | hy'
              · exact absurd (he ▸ hh).symm hhash
              · exact ((ih hp' h2 hs').mp hmem') y hy' hh
          · intro hall
            right
            exact (ih hp' h2 hs').mpr fun y hy hh => hall y (List.mem_cons_of_mem _ hy) hh

theorem disjoint_keep_dup {seen : List String} {l : List (Nat × FileRecord)}
    {x : Nat × FileRecord} (hp : l.Pairwise fun a b => a.1 < b.1)
    (hk : x ∈ keepGo seen l) (hd : x ∈ dupGo seen l) : False := by
  induction l generalizing seen with
  | nil => simp [keepGo] at hk
  | cons r rest ih =>
    rw [List.pairwise_cons] at hp
    obtain ⟨hr, hp'⟩ := hp
    have hxrne : ∀ z : Nat × FileRecord, z ∈ rest → z ≠ r := by
      intro z hz he
      subst he
      exact absurd (hr z hz) (lt_irrefl _)
    by_cases hm : r.2.FileHash ∈ seen
    · rw [keepGo, if_pos hm] at hk
      rw [dupGo, if_pos hm] at hd
      rcases List.mem_cons.mp hd with he | hd'
      · exact hxrne x (mem_of_mem_keepGo hk) he
      · exact ih hp' hk hd'
    · rw [keepGo, if_neg hm] at hk
      rw [dupGo, if_neg hm] at hd
      rcases List.mem_cons.mp hk with he | hk'
      · exact hxrne x (mem_of_mem_dupGo hd) he
      · exact ih hp' hk' hd

theorem mem_dupGo_iff {l : List (Nat × FileRecord)} {x : Nat × FileRecord}
    (hp : l.Pairwise fun a b => a.1 < b.1) (hx : x ∈ l) :
    x ∈ dupGo [] l ↔ ∃ y ∈ l, y.2.FileHash = x.2.FileHash ∧ y.1 < x.1 := by
  constructor
  · intro hd
    by_contra hno
    push_neg at hno
    have hk : x ∈ keepGo [] l := by
      refine (mem_keepGo_iff hp hx (by simp)).mpr ?_
      intro y hy hh
      have := hno y hy hh
      omega
    exact disjoint_keep_dup hp hk hd
  · rintro ⟨y, hy, hh, hlt⟩
    rcases @mem_keepGo_or_dupGo [] l x hx with hk | hd
    · have := (mem_keepGo_iff hp hx (by simp)).mp hk y hy hh
      omega
    · exact hd

theorem enum_pairwise (l : List FileRecord) :
    (l.enum).Pairwise fun a b => a.1 < b.1 := by
  have h1 : (l.enum.map Prod.fst).Pairwise (· < ·) := by
    rw [List.enum_map_fst]
    exact List.pairwise_lt_range _
  exact List.pairwise_map.mp h1

theorem fsSub_refl (fs : List (List String × List Nat)) : fsSub fs fs :=
  fun _ _ h => h

theorem fsSub_trans {a b c : List (List String × List Nat)}
    (h1 : fsSub a b) (h2 : fsSub b c) : fsSub a c :=
  fun p x h => h2 p x (h1 p x h)

theorem fsSub_cons_of_not_exists {fs : List (List String × List Nat)}
    {dst : List String} {c : List Nat} (h : pathExists fs dst = false) :
    fsSub fs ((dst, c) :: fs) := by
  intro p x hx
  show (if p = dst then some c else fsLookup fs p) = some x
  by_cases he : p = dst
  · subst he
    rw [pathExists, hx] at h
    cases h
  · rw [if_neg he]
    exact hx

theorem fsSub_isSome {fs fs2 : List (List String × List Nat)} (h : fsSub fs fs2)
    {p : List String} (hp : (fsLookup fs p).isSome = true) :
    (fsLookup fs2 p).isSome = true := by
  cases hl : fsLookup fs p with
  | none => rw [hl] at hp; cases hp
  | some c => rw [h p c hl]; rfl

theorem fsSub_pathExists {fs fs2 : List (List String × List Nat)} (h : fsSub fs fs2)
    {p : List String} (hp : pathExists fs p = true) : pathExists fs2 p = true :=
  fsSub_isSome h hp

/-- Case analysis of one `move_files` iteration: either the destination
existed (or the source vanished) and the file map and copy trace are
unchanged, or the row was copied. -/
theorem mvStep_cases (dir : List String) (w : World) (row : Nat × FileRecord) :
    ((mvStep dir w row).fs = w.fs ∧ (mvStep dir w row).copies = w.copies) ∨
    (pathExists w.fs (mvDst dir row) = false ∧
     ∃ c, fsLookup w.fs row.2.Full_path = some c ∧
       (mvStep dir w row).fs = (mvDst dir row, c) :: w.fs ∧
       (mvStep dir w row).copies = w.copies ++ [(row.2.Full_path, mvDst dir row)]) := by
  simp only [mvStep]
  cases hpe : pathExists w.fs (mvDst dir row) with
  | true => left; exact ⟨rfl, rfl⟩
  | false =>
    cases hsrc : fsLookup w.fs row.2.Full_path with
    | none => left; exact ⟨rfl, rfl⟩
    | some c => right; exact ⟨rfl, c, rfl, rfl, rfl⟩

theorem mvStep_fsSub (dir : List String) (w : World) (row : Nat × FileRecord) :
    fsSub w.fs (mvStep dir w row).fs := by
  rcases mvStep_cases dir w row with ⟨hfs, _⟩ | ⟨hpe, c, _, hfs, _⟩
  · rw [hfs]; exact fsSub_refl _
  · rw [hfs]; exact fsSub_cons_of_not_exists hpe

theorem mvStep_dst_exists (dir : List String) (w : World) (row : Nat × FileRecord)
    (hsrc : (fsLookup w.fs row.2.Full_path).isSome = true) :
    pathExists (mvStep dir w row).fs (mvDst dir row) = true := by
  simp only [mvStep]
  cases hpe : pathExists w.fs (mvDst dir row) with
  | true => exact hpe
  | false =>
    cases hl : fsLookup w.fs row.2.Full_path with
    | none => rw [hl] at hsrc; cases hsrc
    | some c =>
      show pathExists ((mvDst dir row, c) :: w.fs) (mvDst dir row) = true
      show (if mvDst dir row = mvDst dir row then some c else
        fsLookup w.fs (mvDst dir row)).isSome = true
      rw [if_pos rfl]
      rfl

theorem mvStep_skip (dir : List String) (w : World) (row : Nat × FileRecord)
    (hpe : pathExists w.fs (mvDst dir row) = true) :
    (mvStep dir w row).fs = w.fs ∧ (mvStep dir w row).copies = w.copies := by
  rcases mvStep_cases dir w row with ⟨hfs, hcp⟩ | ⟨hpe2, _, _, _, _⟩
  · exact ⟨hfs, hcp⟩
  · rw [hpe] at hpe2; cases hpe2

theorem mvStep_fs_localize (dir : List String) (w : World) (row : Nat × FileRecord)
    {p : List String} (h : fsLookup (mvStep dir w row).fs p ≠ fsLookup w.fs p) :
    p = mvDst dir row := by
  rcases mvStep_cases dir w row with ⟨hfs, _⟩ | ⟨hpe, c, _, hfs, _⟩
  · exact absurd (congrArg (fun fs => fsLookup fs p) hfs) h
  · rw [hfs] at h
    by_cases he : p = mvDst dir row
    · exact he
    · exfalso
      apply h
      show (if p = mvDst dir row then some c else fsLookup w.fs p) = _
      rw [if_neg he]

theorem move_files_fsSub (dups : List (Nat × FileRecord)) (dir : List String)
    (w : World) : fsSub w.fs (move_files dups dir w).fs := by
  induction dups generalizing w with
  | nil => exact fsSub_refl _
  | cons row rest ih =>
    rw [move_files]
    exact fsSub_trans (mvStep_fsSub dir w row) (ih (mvStep dir w row))

theorem move_files_dst_exists (dups : List (Nat × FileRecord)) (dir : List String)
    (w : World) (hsrc : ∀ row ∈ dups, (fsLookup w.fs row.2.Full_path).isSome = true) :
    ∀ row ∈ dups, pathExists (move_files dups dir w).fs (mvDst dir row) = true := by
  induction dups generalizing w with
  | nil => intro row hr; cases hr
  | cons r rest ih =>
    intro row hr
    rw [move_files]
    rcases List.mem_cons.mp hr with he | hmem
    · subst he
      exact fsSub_pathExists (move_files_fsSub rest dir _)
        (mvStep_dst_exists dir w row (hsrc row (List.mem_cons_self _ _)))
    · exact ih (mvStep dir w r)
        (fun z hz => fsSub_isSome (mvStep_fsSub dir w r)
          (hsrc z (List.mem_cons_of_mem _ hz)))
        row hmem

theorem move_files_skip (dups : List (Nat × FileRecord)) (dir : List String)
    (w : World) (hpe : ∀ row ∈ dups, pathExists w.fs (mvDst dir row) = true) :
    (move_files dups dir w).fs = w.fs ∧ (move_files dups dir w).copies = w.copies := by
  induction dups generalizing w with
  | nil => exact ⟨rfl, rfl⟩
  | cons r rest ih =>
    rw [move_files]
    obtain ⟨hfs, hcp⟩ := mvStep_skip dir w r (hpe r (List.mem_cons_self _ _))
    obtain ⟨hfs2, hcp2⟩ := ih (mvStep dir w r)
      (fun z hz => by rw [hfs]; exact hpe z (List.mem_cons_of_mem _ hz))
    rw [hfs2, hcp2, hfs, hcp]
    exact ⟨rfl, rfl⟩

theorem mvStep_copies_char (dir : List String) (w : World) (row : Nat × FileRecord)
    {x : List String × List String} (hx : x ∈ (mvStep dir w row).copies) :
    x ∈ w.copies ∨ x = (row.2.Full_path, mvDst dir row) := by
  rcases mvStep_cases dir w row with ⟨_, hcp⟩ | ⟨_, c, _, _, hcp⟩
  · rw [hcp] at hx; exact Or.inl hx
  · rw [hcp] at hx
    rcases List.mem_append.mp hx with h1 | h2
    · exact Or.inl h1
    · right
      rcases List.mem_singleton.mp h2 with rfl
      rfl

theorem move_files_copies_char (dups : List (Nat × FileRecord)) (dir : List String)
    (w : World) {x : List String × List String}
    (hx : x ∈ (move_files dups dir w).copies) :
    x ∈ w.copies ∨ ∃ row ∈ dups, x = (row.2.Full_path, mvDst dir row) := by
  induction dups generalizing w with
  | nil => exact Or.inl hx
  | cons r rest ih =>
    rw [move_files] at hx
    rcases ih (mvStep dir w r) hx with h1 | ⟨row, hrow, he⟩
    · rcases mvStep_copies_char dir w r h1 with h2 | h2
      · exact Or.inl h2
      · exact Or.inr ⟨r, List.mem_cons_self _ _, h2⟩
    · exact Or.inr ⟨row, List.mem_cons_of_mem _ hrow, he⟩

theorem move_files_fs_localize (dups : List (Nat × FileRecord)) (dir : List String)
    (w : World) {p : List String}
    (h : fsLookup (move_files dups dir w).fs p ≠ fsLookup w.fs p) :
    ∃ row ∈ dups, p = mvDst dir row := by
  induction dups generalizing w with
  | nil => exact absurd rfl h
  | cons r rest ih =>
    rw [move_files] at h
    by_cases hstep : fsLookup (mvStep dir w r).fs p = fsLookup w.fs p
    · have h2 : fsLookup (move_files rest dir (mvStep dir w r)).fs p ≠
          fsLookup (mvStep dir w r).fs p := by
        intro he
        exact h (he.trans hstep)
      obtain ⟨row, hrow, he⟩ := ih (mvStep dir w r) h2
      exact ⟨row, List.mem_cons_of_mem _ hrow, he⟩
    · exact ⟨r, List.mem_cons_self _ _, mvStep_fs_localize dir w r hstep⟩

/-- Complete case analysis of one `create_timeline_directories` iteration
with a parseable mtime: skip (destination present), caught I/O error
(source unreadable), or copy. -/
theorem ctdStep_master (root : List String) (st : TLState) (row : Nat × FileRecord)
    (d : PyDateTime) (hd : fromisoformat row.2.ModifiedTime = some d)
    {st' : TLState} (h : ctdStep root st row = some st') :
    (pathExists st.w.fs (root ++ [ymOf d, row.2.Filename]) = true ∧
     st'.w.fs = st.w.fs ∧ st'.w.copies = st.w.copies ∧
     st'.copied = st.copied ∧ st'.skipped = st.skipped + 1 ∧
     st'.w.log = st.w.log ++
       [LogEvent.copyingInfo row.2.Full_path (root ++ [ymOf d, row.2.Filename])]) ∨
    (pathExists st.w.fs (root ++ [ymOf d, row.2.Filename]) = false ∧
     fsLookup st.w.fs row.2.Full_path = none ∧
     st'.w.fs = st.w.fs ∧ st'.w.copies = st.w.copies ∧
     st'.copied = st.copied ∧ st'.skipped = st.skipped ∧
     st'.w.log = (st.w.log ++
       [LogEvent.copyingInfo row.2.Full_path (root ++ [ymOf d, row.2.Filename])]) ++
       [LogEvent.errorLog row.2.Full_path]) ∨
    (pathExists st.w.fs (root ++ [ymOf d, row.2.Filename]) = false ∧
     ∃ c, fsLookup st.w.fs row.2.Full_path = some c ∧
       st'.w.fs = (root ++ [ymOf d, row.2.Filename], c) :: st.w.fs ∧
       st'.w.copies = st.w.copies ++
         [(row.2.Full_path, root ++ [ymOf d, row.2.Filename])] ∧
       st'.copied = st.copied + 1 ∧ st'.skipped = st.skipped ∧
       st'.w.log = st.w.log ++
         [LogEvent.copyingInfo row.2.Full_path (root ++ [ymOf d, row.2.Filename])]) := by
  simp only [ctdStep, hd] at h
  cases hpe : pathExists st.w.fs (root ++ [ymOf d, row.2.Filename]) with
  | true =>
    rw [hpe, cond_true] at h
    have he := Option.some.inj h
    subst he
    exact Or.inl ⟨rfl, rfl, rfl, rfl, rfl, rfl⟩
  | false =>
    rw [hpe, cond_false] at h
    cases hsrc : fsLookup st.w.fs row.2.Full_path with
    | none =>
      rw [hsrc] at h
      have he := Option.some.inj h
      subst he
      exact Or.inr (Or.inl ⟨rfl, rfl, rfl, rfl, rfl, rfl, rfl⟩)
    | some c =>
      rw [hsrc] at h
      have he := Option.some.inj h
      subst he
      exact Or.inr (Or.inr ⟨rfl, c, rfl, rfl, rfl, rfl, rfl, rfl⟩)

theorem ctdStep_parse_some (root : List String) (st : TLState) (row : Nat × FileRecord)
    (d : PyDateTime) (hd : fromisoformat row.2.ModifiedTime = some d) :
    ∃ st', ctdStep root st row = some st' := by
  simp only [ctdStep, hd]
  exact ⟨_, rfl⟩

theorem ctdStep_fsSub (root : List String) (st : TLState) (row : Nat × FileRecord)
    (d : PyDateTime) (hd : fromisoformat row.2.ModifiedTime = some d)
    {st' : TLState} (h : ctdStep root st row = some st') :
    fsSub st.w.fs st'.w.fs := by
  rcases ctdStep_master root st row d hd h with
    ⟨_, hfs, _⟩ | ⟨_, _, hfs, _⟩ | ⟨hpe, c, _, hfs, _⟩
  · rw [hfs]; exact fsSub_refl _
  · rw [hfs]; exact fsSub_refl _
  · rw [hfs]; exact fsSub_cons_of_not_exists hpe

theorem ctdStep_dst_exists (root : List String) (st : TLState) (row : Nat × FileRecord)
    (d : PyDateTime) (hd : fromisoformat row.2.ModifiedTime = some d)
    (hsrc : (fsLookup st.w.fs row.2.Full_path).isSome = true)
    {st' : TLState} (h : ctdStep root st row = some st') :
    pathExists st'.w.fs (root ++ [ymOf d, row.2.Filename]) = true := by
  rcases ctdStep_master root st row d hd h with
    ⟨hpe, hfs, _⟩ | ⟨_, hno, _⟩ | ⟨_, c, _, hfs, _⟩
  · rw [hfs]; exact hpe
  · rw [hno] at hsrc; cases hsrc
  · rw [hfs]
    show (if root ++ [ymOf d, row.2.Filename] = root ++ [ymOf d, row.2.Filename]
      then some c else fsLookup st.w.fs (root ++ [ymOf d, row.2.Filename])).isSome = true
    rw [if_pos rfl]
    rfl

/-- Running `create_timeline_directories` over rows with parseable mtimes:
the run succeeds, the file map only grows, every new copy-trace entry and
every changed path is a timeline destination of one of the rows, and every
row whose source was present ends with its destination present. -/
theorem ctd_run (rows : List (Nat × FileRecord)) (root : List String) (c s : Nat)
    (w : World)
    (hparse : ∀ row ∈ rows, (fromisoformat row.2.ModifiedTime).isSome = true) :
    ∃ st', create_timeline_directories rows root c s w = some st' ∧
      fsSub w.fs st'.w.fs ∧
      (∀ x ∈ st'.w.copies, x ∈ w.copies ∨ ∃ row ∈ rows, ∃ d,
        fromisoformat row.2.ModifiedTime = some d ∧
        x = (row.2.Full_path, root ++ [ymOf d, row.2.Filename])) ∧
      (∀ p, fsLookup st'.w.fs p ≠ fsLookup w.fs p → ∃ row ∈ rows, ∃ d,
        fromisoformat row.2.ModifiedTime = some d ∧
        p = root ++ [ymOf d, row.2.Filename]) ∧
      (∀ row ∈ rows, ∀ d, fromisoformat row.2.ModifiedTime = some d →
        (fsLookup w.fs row.2.Full_path).isSome = true →
        pathExists st'.w.fs (root ++ [ymOf d, row.2.Filename]) = true) := by
  induction rows generalizing c s w with
  | nil =>
    refine ⟨⟨w, c, s⟩, rfl, fsSub_refl _, ?_, ?_, ?_⟩
    · intro x hx; exact Or.inl hx
    · intro p hp; exact absurd rfl hp
    · intro row hr; cases hr
  | cons r rest ih =>
    have hr0 := hparse r (List.mem_cons_self _ _)
    obtain ⟨d, hd⟩ := Option.isSome_iff_exists.mp hr0
    obtain ⟨st1, hst1⟩ := ctdStep_parse_some root ⟨w, c, s⟩ r d hd
    obtain ⟨st', hrun, hsub, hcp, hloc, hex⟩ :=
      ih st1.copied st1.skipped st1.w
        (fun z hz => hparse z (List.mem_cons_of_mem _ hz))
    have hstep_sub : fsSub w.fs st1.w.fs := ctdStep_fsSub root ⟨w, c, s⟩ r d hd hst1
    refine ⟨st', ?_, fsSub_trans hstep_sub hsub, ?_, ?_, ?_⟩
    · rw [create_timeline_directories, hst1]
      exact hrun
    · intro x hx
      rcases hcp x hx with h1 | ⟨row, hrow, d2, hd2, he⟩
      · rcases ctdStep_master root ⟨w, c, s⟩ r d hd hst1 with
          ⟨_, _, hcps, _⟩ | ⟨_, _, _, hcps, _⟩ | ⟨_, c2, _, _, hcps, _⟩
        · rw [hcps] at h1; exact Or.inl h1
        · rw [hcps] at h1; exact Or.inl h1
        · rw [hcps] at h1
          rcases List.mem_append.mp h1 with h2 | h2
          · exact Or.inl h2
          · rcases List.mem_singleton.mp h2 with rfl
            exact Or.inr ⟨r, List.mem_cons_self _ _, d, hd, rfl⟩
      · exact Or.inr ⟨row, List.mem_cons_of_mem _ hrow, d2, hd2, he⟩
    · intro p hp
      by_cases hstep : fsLookup st1.w.fs p = fsLookup w.fs p
      · have h2 : fsLookup st'.w.fs p ≠ fsLookup st1.w.fs p := by
          intro he; exact hp (he.trans hstep)
        obtain ⟨row, hrow, d2, hd2, he⟩ := hloc p h2
        exact ⟨row, List.mem_cons_of_mem _ hrow, d2, hd2, he⟩
      · rcases ctdStep_master root ⟨w, c, s⟩ r d hd hst1 with
          ⟨_, hfs, _⟩ | ⟨_, _, hfs, _⟩ | ⟨_, c2, _, hfs, _⟩
        · rw [hfs] at hstep; exact absurd rfl hstep
        · rw [hfs] at hstep; exact absurd rfl hstep
        · refine ⟨r, List.mem_cons_self _ _, d, hd, ?_⟩
          by_contra hne
          apply hstep
          rw [hfs]
          show (if p = root ++ [ymOf d, r.2.Filename] then some c2
            else fsLookup w.fs p) = _
          rw [if_neg hne]
    · intro row hrow d2 hd2 hsrc
      rcases List.mem_cons.mp hrow with he | hmem
      · subst he
        rw [hd] at hd2
        have hde := Option.some.inj hd2
        subst hde
        exact fsSub_pathExists hsub
          (ctdStep_dst_exists root ⟨w, c, s⟩ row d hd hsrc hst1)
      · exact hex row hmem d2 hd2 (fsSub_isSome hstep_sub hsrc)

/-- Re-running `create_timeline_directories` when every destination already
exists: nothing is copied, every row is counted as skipped, and the file
map and copy trace are untouched. -/
theorem ctd_skip (rows : List (Nat × FileRecord)) (root : List String) (c s : Nat)
    (w : World)
    (hall : ∀ row ∈ rows, ∃ d, fromisoformat row.2.ModifiedTime = some d ∧
      pathExists w.fs (root ++ [ymOf d, row.2.Filename]) = true) :
    ∃ st', create_timeline_directories rows root c s w = some st' ∧
      st'.w.fs = w.fs ∧ st'.w.copies = w.copies ∧
      st'.copied = c ∧ st'.skipped = s + rows.length := by
  induction rows generalizing c s w with
  | nil => exact ⟨⟨w, c, s⟩, rfl, rfl, rfl, rfl, rfl⟩
  | cons r rest ih =>
    obtain ⟨d, hd, hpe⟩ := hall r (List.mem_cons_self _ _)
    obtain ⟨st1, hst1⟩ := ctdStep_parse_some root ⟨w, c, s⟩ r d hd
    rcases ctdStep_master root ⟨w, c, s⟩ r d hd hst1 with
      ⟨_, hfs, hcp, hc, hs, _⟩ | ⟨hpe2, _⟩ | ⟨hpe2, _⟩
    · obtain ⟨st', hrun, hfs2, hcp2, hc2, hs2⟩ := ih st1.copied st1.skipped st1.w
        (fun z hz => by
          obtain ⟨d2, hd2, hpe3⟩ := hall z (List.mem_cons_of_mem _ hz)
          exact ⟨d2, hd2, by rw [hfs]; exact hpe3⟩)
      refine ⟨st', ?_, ?_, ?_, ?_, ?_⟩
      · rw [create_timeline_directories, hst1]; exact hrun
      · rw [hfs2, hfs]
      · rw [hcp2, hcp]
      · rw [hc2, hc]
      · rw [hs2, hs]
        simp [List.length_cons]
        omega
    · rw [hpe] at hpe2; cases hpe2
    · rw [hpe] at hpe2; cases hpe2

theorem ctd_append (l1 l2 : List (Nat × FileRecord)) (root : List String)
    (c s : Nat) (w : World) :
    create_timeline_directories (l1 ++ l2) root c s w =
      match create_timeline_directories l1 root c s w with
      | none => none
      | some st => create_timeline_directories l2 root st.copied st.skipped st.w := by
  induction l1 generalizing c s w with
  | nil => rfl
  | cons r rest ih =>
    rw [List.cons_append, create_timeline_directories, create_timeline_directories]
    cases hst : ctdStep root ⟨w, c, s⟩ r with
    | none => rfl
    | some st1 => exact ih st1.copied st1.skipped st1.w

theorem batch_generator_join (df : List (Nat × FileRecord)) :
    (batch_generator df).flatten = df := by
  have H : ∀ n (df : List (Nat × FileRecord)), df.length ≤ n →
      (batch_generator df).flatten = df := by
    intro n
    induction n with
    | zero =>
      intro df hlen
      have hdf : df = [] := List.eq_nil_of_length_eq_zero (Nat.le_zero.mp hlen)
      subst hdf
      rw [batch_generator]
      simp
    | succ n ih =>
      intro df hlen
      by_cases h : df = []
      · subst h
        rw [batch_generator]
        simp
      · rw [batch_generator, dif_neg h, List.flatten_cons]
        have hlen2 : (df.drop BATCH_SIZE).length ≤ n := by
          rw [List.length_drop]
          have hne : df.length ≠ 0 := fun hl => h (List.eq_nil_of_length_eq_zero hl)
          have hb : 0 < BATCH_SIZE := by decide
          omega
        rw [ih _ hlen2]
        exact List.take_append_drop _ _
  exact H df.length df (le_refl _)

theorem runBatches_eq (batches : List (List (Nat × FileRecord))) (w : World)
    (c s : Nat) :
    runBatches batches w c s =
      create_timeline_directories batches.flatten TIMELINE_DIRECTORY c s w := by
  induction batches generalizing w c s with
  | nil => rfl
  | cons b rest ih =>
    rw [runBatches, List.flatten_cons, ctd_append]
    cases hst : create_timeline_directories b TIMELINE_DIRECTORY c s w with
    | none => rfl
    | some st => exact ih st.w st.copied st.skipped

/-- `main` with the batch loop flattened: quarantine the duplicates, then
process the whole unique dataframe row by row. -/
theorem mainRun_eq (md5Hex : List Nat → String) (walk : List PyFile) (w : World) :
    mainRun md5Hex walk w = create_timeline_directories
      (drop_duplicates (make_dataframe_from_metadata md5Hex walk))
      TIMELINE_DIRECTORY 0 0
      (move_files (identify_duplicates (make_dataframe_from_metadata md5Hex walk))
        REDUNDANT_DIRECTORY w) := by
  simp only [mainRun]
  rw [runBatches_eq, batch_generator_join]

theorem make_df_provenance (md5Hex : List Nat → String) (walk : List PyFile)
    {x : Nat × FileRecord} (hx : x ∈ make_dataframe_from_metadata md5Hex walk) :
    ∃ f ∈ walk, process_file md5Hex f = some x.2 := by
  have hsnd : x.2 ∈ (walk.filter fun f => keepName f.name).filterMap
      (process_file md5Hex) := by
    rw [make_dataframe_from_metadata] at hx
    have hmap := List.mem_map_of_mem Prod.snd hx
    rw [List.enum_map_snd] at hmap
    exact hmap
  obtain ⟨f, hf, hpf⟩ := List.mem_filterMap.mp hsnd
  exact ⟨f, List.mem_of_mem_filter hf, hpf⟩

theorem process_file_inv (md5Hex : List Nat → String) (f : PyFile) (r : FileRecord)
    (h : process_file md5Hex f = some r) :
    ∃ sz d, f.stat = some (sz, d) ∧ r.ModifiedTime = isoformat d ∧
      r.Full_path = f.path ∧ r.Filename = f.name ∧ ∃ c, f.content = some c := by
  cases hstat : f.stat with
  | none =>
    simp only [process_file, hstat] at h
    exact Option.noConfusion h
  | some sd =>
    obtain ⟨sz, d⟩ := sd
    simp only [process_file, hstat] at h
    cases hch : calculate_file_hash md5Hex f.content with
    | none =>
      simp only [hch] at h
      exact Option.noConfusion h
    | some hh =>
      simp only [hch] at h
      by_cases he : hh = ""
      · rw [if_pos he] at h
        exact Option.noConfusion h
      · rw [if_neg he] at h
        have he2 := Option.some.inj h
        subst he2
        refine ⟨sz, d, rfl, rfl, rfl, rfl, ?_⟩
        cases hc : f.content with
        | none =>
          rw [hc] at hch
          rw [show calculate_file_hash md5Hex none = none from rfl] at hch
          cases hch
        | some c => exact ⟨c, rfl⟩

theorem df_row_parse (md5Hex : List Nat → String) (walk : List PyFile)
    (Hvalid : ∀ f ∈ walk, ∀ sz d, f.stat = some (sz, d) → ValidDT d)
    {x : Nat × FileRecord} (hx : x ∈ make_dataframe_from_metadata md5Hex walk) :
    ∃ d, fromisoformat x.2.ModifiedTime = some d := by
  obtain ⟨f, hf, hpf⟩ := make_df_provenance md5Hex walk hx
  obtain ⟨sz, d, hstat, hmt, _⟩ := process_file_inv md5Hex f x.2 hpf
  refine ⟨d, ?_⟩
  rw [hmt]
  exact fromisoformat_isoformat d (Hvalid f hf sz d hstat)

theorem df_row_src (md5Hex : List Nat → String) (walk : List PyFile)
    (fs0 : List (List String × List Nat))
    (Hfs : ∀ f ∈ walk, fsLookup fs0 f.path = f.content)
    {x : Nat × FileRecord} (hx : x ∈ make_dataframe_from_metadata md5Hex walk) :
    (fsLookup fs0 x.2.Full_path).isSome = true := by
  obtain ⟨f, hf, hpf⟩ := make_df_provenance md5Hex walk hx
  obtain ⟨sz, d, _, _, hpath, _, c, hc⟩ := process_file_inv md5Hex f x.2 hpf
  rw [hpath, Hfs f hf, hc]
  rfl

/-- C1: running the full pipeline twice against the same unchanged source
tree produces zero additional copies on the second run: every quarantine
destination and every timeline destination computed in the second run
already exists, so each copy is skipped, the file map and the copy trace
are unchanged, and the second run reports `copied_files = 0` with every
unique representative counted as skipped. -/
theorem claim_C1 (md5Hex : List Nat → String) (walk : List PyFile) (w0 : World)
    (Hfs : ∀ f ∈ walk, fsLookup w0.fs f.path = f.content)
    (Hvalid : ∀ f ∈ walk, ∀ sz d, f.stat = some (sz, d) → ValidDT d) :
    ∃ st1 st2,
      mainRun md5Hex walk w0 = some st1 ∧
      mainRun md5Hex walk st1.w = some st2 ∧
      st2.w.fs = st1.w.fs ∧
      st2.w.copies = st1.w.copies ∧
      st2.copied = 0 ∧
      st2.skipped =
        (drop_duplicates (make_dataframe_from_metadata md5Hex walk)).length := by
  have hparse : ∀ x ∈ make_dataframe_from_metadata md5Hex walk,
      (fromisoformat x.2.ModifiedTime).isSome = true := by
    intro x hx
    obtain ⟨d, hd⟩ := df_row_parse md5Hex walk Hvalid hx
    rw [hd]
    rfl
  have hsrc0 : ∀ x ∈ make_dataframe_from_metadata md5Hex walk,
      (fsLookup w0.fs x.2.Full_path).isSome = true :=
    fun x hx => df_row_src md5Hex walk w0.fs Hfs hx
  have hdup_sub : ∀ x ∈ identify_duplicates (make_dataframe_from_metadata md5Hex walk),
      x ∈ make_dataframe_from_metadata md5Hex walk := fun x hx => mem_of_mem_dupGo hx
  have huniq_sub : ∀ x ∈ drop_duplicates (make_dataframe_from_metadata md5Hex walk),
      x ∈ make_dataframe_from_metadata md5Hex walk := fun x hx => mem_of_mem_keepGo hx
  -- first run: quarantine phase
  have hsub1 : fsSub w0.fs
      (move_files (identify_duplicates (make_dataframe_from_metadata md5Hex walk))
        REDUNDANT_DIRECTORY w0).fs :=
    move_files_fsSub _ _ _
  have hA : ∀ row ∈ identify_duplicates (make_dataframe_from_metadata md5Hex walk),
      pathExists
        (move_files (identify_duplicates (make_dataframe_from_metadata md5Hex walk))
          REDUNDANT_DIRECTORY w0).fs (mvDst REDUNDANT_DIRECTORY row) = true :=
    move_files_dst_exists _ _ _ (fun row hr => hsrc0 row (hdup_sub row hr))
  -- first run: timeline phase
  obtain ⟨st1, hrun1, hsub2, _, _, hex⟩ :=
    ctd_run (drop_duplicates (make_dataframe_from_metadata md5Hex walk))
      TIMELINE_DIRECTORY 0 0
      (move_files (identify_duplicates (make_dataframe_from_metadata md5Hex walk))
        REDUNDANT_DIRECTORY w0)
      (fun row hr => hparse row (huniq_sub row hr))
  have hmain1 : mainRun md5Hex walk w0 = some st1 := by
    rw [mainRun_eq]
    exact hrun1
  -- all second-run destinations already exist in st1
  have hA2 : ∀ row ∈ identify_duplicates (make_dataframe_from_metadata md5Hex walk),
      pathExists st1.w.fs (mvDst REDUNDANT_DIRECTORY row) = true :=
    fun row hr => fsSub_pathExists hsub2 (hA row hr)
  have hB : ∀ row ∈ drop_duplicates (make_dataframe_from_metadata md5Hex walk),
      ∃ d, fromisoformat row.2.ModifiedTime = some d ∧
        pathExists st1.w.fs (TIMELINE_DIRECTORY ++ [ymOf d, row.2.Filename]) = true := by
    intro row hr
    obtain ⟨d, hd⟩ := df_row_parse md5Hex walk Hvalid (huniq_sub row hr)
    refine ⟨d, hd, ?_⟩
    exact hex row hr d hd (fsSub_isSome hsub1 (hsrc0 row (huniq_sub row hr)))
  -- second run: quarantine phase is a no-op on fs and copies
  obtain ⟨hmfs, hmcp⟩ :=
    move_files_skip (identify_duplicates (make_dataframe_from_metadata md5Hex walk))
      REDUNDANT_DIRECTORY st1.w hA2
  -- second run: timeline phase skips every row
  obtain ⟨st2, hrun2, hfs2, hcp2, hc2, hs2⟩ :=
    ctd_skip (drop_duplicates (make_dataframe_from_metadata md5Hex walk))
      TIMELINE_DIRECTORY 0 0
      (move_files (identify_duplicates (make_dataframe_from_metadata md5Hex walk))
        REDUNDANT_DIRECTORY st1.w)
      (by
        intro row hr
        obtain ⟨d, hd, hpe⟩ := hB row hr
        refine ⟨d, hd, ?_⟩
        rw [hmfs]
        exact hpe)
  refine ⟨st1, st2, hmain1, ?_, ?_, ?_, hc2, ?_⟩
  · rw [mainRun_eq]
    exact hrun2
  · rw [hfs2, hmfs]
  · rw [hcp2, hmcp]
  · rw [hs2]
    exact Nat.zero_add _

theorem redundant_not_under_source (x : String) (q : List String) :
    REDUNDANT_DIRECTORY ++ [x] ≠ PICTURE_DIRECTORY ++ q := by
  intro h
  have h1 : (REDUNDANT_DIRECTORY ++ [x]).get? 1 = (PICTURE_DIRECTORY ++ q).get? 1 := by
    rw [h]
  rw [show (REDUNDANT_DIRECTORY ++ [x]).get? 1 = some "DanExtDisk2" from rfl,
      show (PICTURE_DIRECTORY ++ q).get? 1 = some "Master" from rfl] at h1
  exact absurd h1 (by decide)

theorem timeline_not_under_source (ym name : String) (q : List String) :
    TIMELINE_DIRECTORY ++ [ym, name] ≠ PICTURE_DIRECTORY ++ q := by
  intro h
  have h1 : (TIMELINE_DIRECTORY ++ [ym, name]).get? 1 = (PICTURE_DIRECTORY ++ q).get? 1 := by
    rw [h]
  rw [show (TIMELINE_DIRECTORY ++ [ym, name]).get? 1 = some "DanExtDisk2" from rfl,
      show (PICTURE_DIRECTORY ++ q).get? 1 = some "Master" from rfl] at h1
  exact absurd h1 (by decide)

/-- C9: the pipeline never deletes or rewrites anything under the source
root — after a full run every path under `PICTURE_DIRECTORY` resolves to
exactly what it resolved to before — and every copy it performs lands
either in quarantine under `{index}_{originalFilename}` for some duplicate
row, or in the timeline partition `YYYY-MM/{filename}` for some unique
representative row. -/
theorem claim_C9 (md5Hex : List Nat → String) (walk : List PyFile) (w0 : World)
    (Hvalid : ∀ f ∈ walk, ∀ sz d, f.stat = some (sz, d) → ValidDT d) :
    ∃ st1, mainRun md5Hex walk w0 = some st1 ∧
      (∀ p, (∃ q, p = PICTURE_DIRECTORY ++ q) →
        fsLookup st1.w.fs p = fsLookup w0.fs p) ∧
      (∀ x ∈ st1.w.copies, x ∈ w0.copies ∨
        (∃ row ∈ identify_duplicates (make_dataframe_from_metadata md5Hex walk),
          x = (row.2.Full_path,
            REDUNDANT_DIRECTORY ++ [Nat.repr row.1 ++ "_" ++ row.2.Filename])) ∨
        (∃ row ∈ drop_duplicates (make_dataframe_from_metadata md5Hex walk), ∃ d,
          fromisoformat row.2.ModifiedTime = some d ∧
          x = (row.2.Full_path, TIMELINE_DIRECTORY ++ [ymOf d, row.2.Filename]))) := by
  have hparse : ∀ x ∈ drop_duplicates (make_dataframe_from_metadata md5Hex walk),
      (fromisoformat x.2.ModifiedTime).isSome = true := by
    intro x hx
    obtain ⟨d, hd⟩ := df_row_parse md5Hex walk Hvalid (mem_of_mem_keepGo hx)
    rw [hd]
    rfl
  obtain ⟨st1, hrun1, _, hcp, hloc, _⟩ :=
    ctd_run (drop_duplicates (make_dataframe_from_metadata md5Hex walk))
      TIMELINE_DIRECTORY 0 0
      (move_files (identify_duplicates (make_dataframe_from_metadata md5Hex walk))
        REDUNDANT_DIRECTORY w0) hparse
  refine ⟨st1, ?_, ?_, ?_⟩
  · rw [mainRun_eq]
    exact hrun1
  · rintro p ⟨q, hq⟩
    by_contra hne
    by_cases hmv : fsLookup
        (move_files (identify_duplicates (make_dataframe_from_metadata md5Hex walk))
          REDUNDANT_DIRECTORY w0).fs p = fsLookup w0.fs p
    · have h2 : fsLookup st1.w.fs p ≠ fsLookup
          (move_files (identify_duplicates (make_dataframe_from_metadata md5Hex walk))
            REDUNDANT_DIRECTORY w0).fs p := fun he => hne (he.trans hmv)
      obtain ⟨row, _, d, _, hp⟩ := hloc p h2
      exact timeline_not_under_source (ymOf d) row.2.Filename q (hp.symm.trans hq)
    · obtain ⟨row, _, hp⟩ := move_files_fs_localize _ _ _ hmv
      rw [mvDst] at hp
      exact redundant_not_under_source (Nat.repr row.1 ++ "_" ++ row.2.Filename) q
        (hp.symm.trans hq)
  · intro x hx
    rcases hcp x hx with h1 | ⟨row, hrow, d, hd, he⟩
    · rcases move_files_copies_char _ _ _ h1 with h2 | ⟨row, hrow, he⟩
      · exact Or.inl h2
      · refine Or.inr (Or.inl ⟨row, hrow, ?_⟩)
        rw [he, mvDst]
    · exact Or.inr (Or.inr ⟨row, hrow, d, hd, he⟩)

/-- C2: classification partitions the fingerprinted dataframe rows: every
row is a representative or a duplicate and not both; a row is kept by
`drop_duplicates` exactly when it carries the lowest enumeration index of
its fingerprint group (so the sole member of a singleton group is kept),
and marked by `identify_duplicates` exactly when an earlier row carries
the same fingerprint. -/
theorem claim_C2 (l : List FileRecord) :
    (∀ x, x ∈ l.enum ↔
      (x ∈ drop_duplicates l.enum ∨ x ∈ identify_duplicates l.enum)) ∧
    (∀ x, ¬ (x ∈ drop_duplicates l.enum ∧ x ∈ identify_duplicates l.enum)) ∧
    (∀ x ∈ l.enum, (x ∈ drop_duplicates l.enum ↔
      ∀ y ∈ l.enum, y.2.FileHash = x.2.FileHash → x.1 ≤ y.1)) ∧
    (∀ x ∈ l.enum, (x ∈ identify_duplicates l.enum ↔
      ∃ y ∈ l.enum, y.2.FileHash = x.2.FileHash ∧ y.1 < x.1)) := by
  have hp := enum_pairwise l
  refine ⟨?_, ?_, ?_, ?_⟩
  · intro x
    constructor
    · intro hx
      exact mem_keepGo_or_dupGo hx
    · intro hx
      rcases hx with h | h
      · exact mem_of_mem_keepGo h
      · exact mem_of_mem_dupGo h
  · rintro x ⟨hk, hd⟩
    exact disjoint_keep_dup hp hk hd
  · intro x hx
    exact mem_keepGo_iff hp hx (by simp)
  · intro x hx
    exact mem_dupGo_iff hp hx

/-- C8: the partition key is a deterministic function of the modification
time alone: for every record the scan produced from a file with valid
mtime `d`, the key computed by `create_timeline_directories` (parse the
stored `isoformat` rendering, format `%Y-%m`) is exactly the `YYYY-MM`
rendering of `d`, independent of anything else about the file or run. -/
theorem claim_C8 (md5Hex : List Nat → String) (f : PyFile) (sz : Nat)
    (d : PyDateTime) (r : FileRecord) (hstat : f.stat = some (sz, d))
    (hv : ValidDT d) (hproc : process_file md5Hex f = some r) :
    partitionKey r = some (ymOf d) := by
  obtain ⟨sz2, d2, hstat2, hmt, _⟩ := process_file_inv md5Hex f r hproc
  rw [hstat] at hstat2
  have hpair := Prod.mk.injEq .. ▸ Option.some.inj hstat2
  have hd2 : d = d2 := hpair.2
  rw [partitionKey, hmt, ← hd2, fromisoformat_isoformat d hv]
  rfl

/-- C3 (evaluation of the code at the failing input): a readable
zero-length file reads back an empty head chunk — `read_file_chunks`
succeeds with `(b'', None)`, distinguishing it from an unreadable file's
`(None, None)` — yet `calculate_file_hash` treats the empty bytes as falsy
and returns `None`, so `process_file` drops the file and the scan produces
no row for it: it is excluded like a scan failure instead of receiving the
digest of the empty window pair. -/
theorem claim_C3 (md5Hex : List Nat → String) :
    read_file_chunks (some []) CHUNK_SIZE = (some [], none) ∧
    read_file_chunks none CHUNK_SIZE = (none, none) ∧
    calculate_file_hash md5Hex (some []) = none ∧
    process_file md5Hex emptyFile = none ∧
    make_dataframe_from_metadata md5Hex [emptyFile] = [] :=
  ⟨rfl, rfl, rfl, rfl, rfl⟩

/-- C6: a file whose `stat` or `open` raises yields no metadata row, and
the scan of any walk containing such a file equals the scan with the file
removed — the remaining files are all still processed, and the failed file
appears in neither the representatives nor the duplicates. -/
theorem claim_C6 (md5Hex : List Nat → String) :
    (∀ f : PyFile, f.stat = none ∨ f.content = none →
      process_file md5Hex f = none) ∧
    (∀ (w1 w2 : List PyFile) (f : PyFile), process_file md5Hex f = none →
      make_dataframe_from_metadata md5Hex (w1 ++ f :: w2) =
        make_dataframe_from_metadata md5Hex (w1 ++ w2) ∧
      identify_duplicates (make_dataframe_from_metadata md5Hex (w1 ++ f :: w2)) =
        identify_duplicates (make_dataframe_from_metadata md5Hex (w1 ++ w2)) ∧
      drop_duplicates (make_dataframe_from_metadata md5Hex (w1 ++ f :: w2)) =
        drop_duplicates (make_dataframe_from_metadata md5Hex (w1 ++ w2))) := by
  constructor
  · intro f hf
    rcases hf with hstat | hcont
    · simp only [process_file, hstat]
    · cases hstat : f.stat with
      | none => simp only [process_file, hstat]
      | some sd =>
        obtain ⟨sz, d⟩ := sd
        simp only [process_file, hstat, hcont]
        rfl
  · intro w1 w2 f hproc
    have hmd : make_dataframe_from_metadata md5Hex (w1 ++ f :: w2) =
        make_dataframe_from_metadata md5Hex (w1 ++ w2) := by
      rw [make_dataframe_from_metadata, make_dataframe_from_metadata]
      congr 1
      rw [List.filter_append, List.filter_append, List.filter_cons]
      cases hk : keepName f.name with
      | false =>
        simp only [Bool.false_eq_true, if_neg]
        simp
      | true =>
        simp only [if_pos]
        rw [List.filterMap_append, List.filterMap_append, List.filterMap_cons, hproc]
    exact ⟨hmd, by rw [hmd], by rw [hmd]⟩

/-- C7 (amended): for every readable file of at least one byte the
fingerprint is the digest of the 1 MiB prefix window followed by the
1 MiB suffix window; for a file smaller than one window the backward seek
is skipped (`tail = None`) and the digest degrades to the prefix window —
i.e. the whole file — alone.  (A readable zero-length file, by contrast,
yields no digest at all; see the counterexample.) -/
theorem claim_C7_amended (md5Hex : List Nat → String) (c : List Nat)
    (h1 : 1 ≤ c.length) :
    (CHUNK_SIZE ≤ c.length →
      calculate_file_hash md5Hex (some c) =
        some (md5Hex (c.take CHUNK_SIZE ++ c.drop (c.length - CHUNK_SIZE)))) ∧
    (c.length < CHUNK_SIZE →
      read_file_chunks (some c) CHUNK_SIZE = (some c, none) ∧
      calculate_file_hash md5Hex (some c) = some (md5Hex c)) :=
  ⟨fun h => calculate_file_hash_large md5Hex c h,
   fun h => calculate_file_hash_small md5Hex c h1 h⟩

/-- C7 counterexample: at the explicit concrete input "readable empty
file", the claim's conclusion — the digest degrades gracefully to the
(empty) prefix window, i.e. `some (digest b'')` — is false: the code
returns `None`. -/
theorem claim_C7_counterexample :
    calculate_file_hash exampleDigest (some []) ≠ some (exampleDigest []) := by
  decide

theorem claim_C7_witness :
    read_file_chunks (some [5]) CHUNK_SIZE = (some [5], none) ∧
    calculate_file_hash exampleDigest (some [5]) = some (exampleDigest [5]) :=
  (claim_C7_amended exampleDigest [5] (by decide)).2 (by decide)

/-- C10: for a readable file of at least one byte and smaller than the
1 MiB chunk, the prefix read returns the whole file, the suffix seek
fails and is skipped, and the fingerprint is the digest of the file's
entire contents, fed exactly once. -/
theorem claim_C10 (md5Hex : List Nat → String) (c : List Nat)
    (h1 : 1 ≤ c.length) (h2 : c.length < CHUNK_SIZE) :
    read_file_chunks (some c) CHUNK_SIZE = (some c, none) ∧
    calculate_file_hash md5Hex (some c) = some (md5Hex c) :=
  calculate_file_hash_small md5Hex c h1 h2

theorem claim_C10_witness :
    read_file_chunks (some [9, 4]) CHUNK_SIZE = (some [9, 4], none) ∧
    calculate_file_hash exampleDigest (some [9, 4]) =
      some (exampleDigest [9, 4]) :=
  claim_C10 exampleDigest [9, 4] (by decide) (by decide)

/-- C4 (amended): when a representative's destination file already exists
at its partition path, the run skips the copy and counts the file as
skipped — but the program maintains no ledger at all: the file map is left
entirely unchanged, so in particular no partition's
`.processed_files.hash` file is created or appended to. -/
theorem claim_C4_amended (root : List String) (st : TLState)
    (row : Nat × FileRecord) (d : PyDateTime)
    (hd : fromisoformat row.2.ModifiedTime = some d)
    (hpe : pathExists st.w.fs (root ++ [ymOf d, row.2.Filename]) = true) :
    ∃ st', ctdStep root st row = some st' ∧
      st'.w.fs = st.w.fs ∧ st'.w.copies = st.w.copies ∧
      st'.copied = st.copied ∧ st'.skipped = st.skipped + 1 ∧
      (∀ part : List String,
        fsLookup st'.w.fs (part ++ [".processed_files.hash"]) =
          fsLookup st.w.fs (part ++ [".processed_files.hash"])) := by
  obtain ⟨st', hst⟩ := ctdStep_parse_some root st row d hd
  rcases ctdStep_master root st row d hd hst with
    ⟨_, hfs, hcp, hc, hs, _⟩ | ⟨hpe2, _⟩ | ⟨hpe2, _⟩
  · exact ⟨st', hst, hfs, hcp, hc, hs, fun part => by rw [hfs]⟩
  · rw [hpe] at hpe2; cases hpe2
  · rw [hpe] at hpe2; cases hpe2

/-- C4 counterexample: concrete scenario — the destination file exists at
`Photo_Time_line/2023-06/a.jpg`, its fingerprint is in no ledger (there is
no ledger file at the spec's well-known per-partition name).  The claim
says the run appends the missing fingerprint to that partition's ledger;
in fact after the run the partition's `.processed_files.hash` still does
not exist at all. -/
theorem claim_C4_counterexample :
    ¬ (∃ st', create_timeline_directories [(0, recC4)] TIMELINE_DIRECTORY 0 0 wC4 =
        some st' ∧
      ∃ c, fsLookup st'.w.fs
        (TIMELINE_DIRECTORY ++ ["2023-06", ".processed_files.hash"]) = some c) := by
  rintro ⟨st', heq, c, hc⟩
  have h1 : (create_timeline_directories [(0, recC4)] TIMELINE_DIRECTORY 0 0 wC4).map
      (fun st => fsLookup st.w.fs
        (TIMELINE_DIRECTORY ++ ["2023-06", ".processed_files.hash"])) =
      some (fsLookup st'.w.fs
        (TIMELINE_DIRECTORY ++ ["2023-06", ".processed_files.hash"])) := by
    rw [heq]
    rfl
  have h2 : (create_timeline_directories [(0, recC4)] TIMELINE_DIRECTORY 0 0 wC4).map
      (fun st => fsLookup st.w.fs
        (TIMELINE_DIRECTORY ++ ["2023-06", ".processed_files.hash"])) =
      some none := by decide
  rw [h2] at h1
  have h3 := Option.some.inj h1
  rw [← h3] at hc
  exact Option.noConfusion hc

theorem claim_C4_witness :
    (ctdStep TIMELINE_DIRECTORY ⟨wC4, 0, 0⟩ (0, recC4)).map
      (fun st => (decide (st.w.fs = wC4.fs), st.copied, st.skipped)) =
      some (true, 0, 1) := by
  obtain ⟨st', hst, hfs, hcp, hc, hs, _⟩ :=
    claim_C4_amended TIMELINE_DIRECTORY ⟨wC4, 0, 0⟩ (0, recC4)
      ⟨2023, 6, 15, 10, 0, 0⟩ (by decide) (by decide)
  rw [hst]
  show some (decide (st'.w.fs = wC4.fs), st'.copied, st'.skipped) = some (true, 0, 1)
  rw [hc, hs, decide_eq_true hfs]

/-- C5 (amended): when a second representative maps to an already-occupied
destination path, the archiver refuses to overwrite — the destination
keeps its existing content — but it surfaces no `NameCollision` warning:
the file is silently counted as skipped and the only log output is the
per-file copying-info line, which names a single source path. -/
theorem claim_C5_amended (root : List String) (st : TLState)
    (row : Nat × FileRecord) (d : PyDateTime) (c0 : List Nat)
    (hd : fromisoformat row.2.ModifiedTime = some d)
    (hpe : fsLookup st.w.fs (root ++ [ymOf d, row.2.Filename]) = some c0) :
    ∃ st', ctdStep root st row = some st' ∧
      fsLookup st'.w.fs (root ++ [ymOf d, row.2.Filename]) = some c0 ∧
      st'.copied = st.copied ∧ st'.skipped = st.skipped + 1 ∧
      st'.w.log = st.w.log ++
        [LogEvent.copyingInfo row.2.Full_path (root ++ [ymOf d, row.2.Filename])] := by
  obtain ⟨st', hst⟩ := ctdStep_parse_some root st row d hd
  have hpeb : pathExists st.w.fs (root ++ [ymOf d, row.2.Filename]) = true := by
    rw [pathExists, hpe]
    rfl
  rcases ctdStep_master root st row d hd hst with
    ⟨_, hfs, _, hc, hs, hlog⟩ | ⟨hpe2, _⟩ | ⟨hpe2, _⟩
  · refine ⟨st', hst, ?_, hc, hs, hlog⟩
    rw [hfs]
    exact hpe
  · rw [hpeb] at hpe2; cases hpe2
  · rw [hpeb] at hpe2; cases hpe2

/-- C5 counterexample: concrete scenario — two representatives with
different fingerprints (`hA` vs `hB`), both named `a.jpg`, both in
partition `2023-06`.  The claim says the archiver surfaces an explicit
`NameCollision` warning identifying both source paths; in fact no log
line of the run mentions both sources (the only lines are the two
per-file copying-info lines, one source each). -/
theorem claim_C5_counterexample :
    ¬ (∃ st', create_timeline_directories [(0, recP), (1, recQ)]
        TIMELINE_DIRECTORY 0 0 wC5 = some st' ∧
      ∃ e ∈ st'.w.log, (PICTURE_DIRECTORY ++ ["p1", "a.jpg"]) ∈ eventPaths e ∧
        (PICTURE_DIRECTORY ++ ["p2", "a.jpg"]) ∈ eventPaths e) := by
  rintro ⟨st', heq, e, he, h1, h2⟩
  have hl1 : (create_timeline_directories [(0, recP), (1, recQ)]
      TIMELINE_DIRECTORY 0 0 wC5).map (fun st => st.w.log) = some st'.w.log := by
    rw [heq]
    rfl
  have hl2 : (create_timeline_directories [(0, recP), (1, recQ)]
      TIMELINE_DIRECTORY 0 0 wC5).map (fun st => st.w.log) =
      some [LogEvent.copyingInfo (PICTURE_DIRECTORY ++ ["p1", "a.jpg"])
              (TIMELINE_DIRECTORY ++ ["2023-06", "a.jpg"]),
            LogEvent.copyingInfo (PICTURE_DIRECTORY ++ ["p2", "a.jpg"])
              (TIMELINE_DIRECTORY ++ ["2023-06", "a.jpg"])] := by decide
  rw [hl2] at hl1
  have h3 := Option.some.inj hl1
  rw [← h3] at he
  have hno : ¬ ∃ e2 ∈ [LogEvent.copyingInfo (PICTURE_DIRECTORY ++ ["p1", "a.jpg"])
              (TIMELINE_DIRECTORY ++ ["2023-06", "a.jpg"]),
            LogEvent.copyingInfo (PICTURE_DIRECTORY ++ ["p2", "a.jpg"])
              (TIMELINE_DIRECTORY ++ ["2023-06", "a.jpg"])],
      (PICTURE_DIRECTORY ++ ["p1", "a.jpg"]) ∈ eventPaths e2 ∧
        (PICTURE_DIRECTORY ++ ["p2", "a.jpg"]) ∈ eventPaths e2 := by decide
  exact hno ⟨e, he, h1, h2⟩

theorem claim_C5_witness :
    (ctdStep TIMELINE_DIRECTORY ⟨⟨(TIMELINE_DIRECTORY ++ ["2023-06", "a.jpg"],
        [0]) :: wC5.fs, [], []⟩, 0, 0⟩ (1, recQ)).map
      (fun st => (fsLookup st.w.fs (TIMELINE_DIRECTORY ++ ["2023-06", "a.jpg"]),
        st.copied, st.skipped)) = some (some [0], 0, 1) := by
  obtain ⟨st', hst, hkeep, hc, hs, _⟩ :=
    claim_C5_amended TIMELINE_DIRECTORY
      ⟨⟨(TIMELINE_DIRECTORY ++ ["2023-06", "a.jpg"], [0]) :: wC5.fs, [], []⟩, 0, 0⟩
      (1, recQ) ⟨2023, 6, 15, 10, 0, 0⟩ [0] (by decide) (by decide)
  rw [hst]
  have heq2 : TIMELINE_DIRECTORY ++
      [ymOf ⟨2023, 6, 15, 10, 0, 0⟩, (1, recQ).2.Filename] =
      TIMELINE_DIRECTORY ++ ["2023-06", "a.jpg"] := by decide
  rw [heq2] at hkeep
  show some (fsLookup st'.w.fs (TIMELINE_DIRECTORY ++ ["2023-06", "a.jpg"]),
    st'.copied, st'.skipped) = some (some [0], 0, 1)
  rw [hkeep, hc, hs]

theorem walkW_valid : ∀ f ∈ walkW, ∀ sz d, f.stat = some (sz, d) → ValidDT d := by
  intro f hf sz d hstat
  rcases List.mem_singleton.mp hf with rfl
  have h2 : (3, dtW) = (sz, d) := Option.some.inj hstat
  have hd : d = dtW := (Prod.mk.injEq .. ▸ h2).2.symm
  rw [hd]
  decide

theorem claim_C1_witness :
    (mainRun exampleDigest walkW wW).bind
      (fun s1 => (mainRun exampleDigest walkW s1.w).map
        (fun s2 => (decide (s2.w.fs = s1.w.fs), decide (s2.w.copies = s1.w.copies),
          s2.copied))) = some (true, true, 0) := by
  obtain ⟨st1, st2, h1, h2, hfs, hcp, hc0, _⟩ :=
    claim_C1 exampleDigest walkW wW (by decide) walkW_valid
  rw [h1]
  show (mainRun exampleDigest walkW st1.w).map
    (fun s2 => (decide (s2.w.fs = st1.w.fs), decide (s2.w.copies = st1.w.copies),
      s2.copied)) = some (true, true, 0)
  rw [h2]
  show some (decide (st2.w.fs = st1.w.fs), decide (st2.w.copies = st1.w.copies),
    st2.copied) = some (true, true, 0)
  rw [decide_eq_true hfs, decide_eq_true hcp, hc0]

theorem claim_C2_witness :
    (0, recA) ∈ drop_duplicates ([recA, recB].enum) ∧
    (1, recB) ∈ identify_duplicates ([recA, recB].enum) := by
  obtain ⟨hcov, hdisj, hkeep, hdup⟩ := claim_C2 [recA, recB]
  constructor
  · exact (hkeep (0, recA) (by decide)).mpr (by decide)
  · exact (hdup (1, recB) (by decide)).mpr ⟨(0, recA), by decide, by decide, by decide⟩

theorem claim_C6_witness :
    process_file exampleDigest badFile = none ∧
    make_dataframe_from_metadata exampleDigest [fileA, badFile] =
      make_dataframe_from_metadata exampleDigest [fileA] := by
  have h := claim_C6 exampleDigest
  have hbad : process_file exampleDigest badFile = none :=
    h.1 badFile (Or.inl rfl)
  exact ⟨hbad, (h.2 [fileA] [] badFile hbad).1⟩

theorem claim_C8_witness :
    (process_file exampleDigest fileC8).map partitionKey = some (some "2023-06") := by
  cases hproc : process_file exampleDigest fileC8 with
  | none => exact absurd hproc (by decide)
  | some r =>
    have h := claim_C8 exampleDigest fileC8 3 dtC8 r rfl (by decide) hproc
    show some (partitionKey r) = some (some "2023-06")
    rw [h]
    have : ymOf dtC8 = "2023-06" := by decide
    rw [this]

theorem claim_C9_witness :
    (mainRun exampleDigest walkW wW).map
      (fun s1 => decide (fsLookup s1.w.fs (PICTURE_DIRECTORY ++ ["a.jpg"]) =
        fsLookup wW.fs (PICTURE_DIRECTORY ++ ["a.jpg"]))) = some true := by
  obtain ⟨st1, h1, hsrc, _⟩ := claim_C9 exampleDigest walkW wW walkW_valid
  rw [h1]
  show some (decide (fsLookup st1.w.fs (PICTURE_DIRECTORY ++ ["a.jpg"]) =
    fsLookup wW.fs (PICTURE_DIRECTORY ++ ["a.jpg"]))) = some true
  rw [decide_eq_true (hsrc (PICTURE_DIRECTORY ++ ["a.jpg"]) ⟨["a.jpg"], rfl⟩)]
